import Mathlib

/-!
Verification of the generic plist decode engine (`unmarshal.go`).

The Go source is shallowly embedded: the parsed document tree `cfValue`
becomes the inductive `CfValue`; a reflected destination (a `reflect.Value`
denoting a caller-owned, mutably-writable location) becomes the inductive
`RVal`, with its `reflect.Type` mirrored by `RType` and its `reflect.Kind`
by `RKind`; the in-place mutation performed by the Go engine becomes
explicit state passing (`unmarshal` returns the updated destination next
to the error result).  Machine integers are `Nat`/`Int` with explicit
wrapping where the Go conversions wrap; 64-bit floats are modelled by the
rational number a decoded literal denotes, since the engine only copies
float payloads verbatim and never computes with them (IEEE narrowing from
64 to 32 bits is abstracted as a change of tag carrying the same payload).

Collaborators that live outside `unmarshal.go` (the `mustParse*` numeric
string primitives, the struct field metadata provider `getTypeInfo`, the
`typeName` method of `cfValue`) are modelled from the specification and
marked as such in their doc comments.
-/

set_option autoImplicit false

namespace Plist

/-- Opaque absolute timestamp (Go `time.Time`, already UTC).  The engine
only copies timestamps verbatim, so the representation is an opaque
integer instant. -/
structure PTime where
  instant : Int
deriving DecidableEq

/-- Document node (Go `cfValue`, the parsed format-agnostic tree).
`number` carries a 64-bit magnitude plus a signedness flag; `real`
carries the denoted value plus the `wide` (64-bit vs 32-bit) flag;
`dict` mirrors `cfDictionary`, which stores parallel `keys` and `values`
slices. -/
inductive CfValue where
  | string (s : String)
  | number (value : Nat) (signed : Bool)
  | real (value : Rat) (wide : Bool)
  | boolean (b : Bool)
  | data (bytes : List Nat)
  | date (t : PTime)
  | uid (value : Nat)
  | array (values : List CfValue)
  | dict (keys : List String) (values : List CfValue)

/-- Modelled from the spec: the node kind name carried by type-mismatch
diagnostics (the `typeName` method of `cfValue`, defined outside
`unmarshal.go`); errors carry "the node's kind name". -/
def CfValue.typeName : CfValue → String
  | .string _ => "string"
  | .number _ _ => "integer"
  | .real _ _ => "real"
  | .boolean _ => "boolean"
  | .data _ => "data"
  | .date _ => "date"
  | .uid _ => "UID"
  | .array _ => "array"
  | .dict _ _ => "dictionary"

/-- Structural kind of a destination (Go `reflect.Kind`).  Integer kinds
carry their bit width (Go `int`/`uint`/`uintptr` are 64-bit here). -/
inductive RKind where
  | string
  | int (bits : Nat)
  | uint (bits : Nat)
  | float32
  | float64
  | bool
  | slice
  | array
  | map
  | strukt
  | iface
  | ptr
deriving DecidableEq

/-- Destination type (Go `reflect.Type`), restricted to the shapes the
engine dispatches on.  `uid` is the named library type `UID` (underlying
kind `uint 64`); `time` is `time.Time` (underlying kind `strukt`).
Struct fields carry the document key name used by the field descriptors,
a settability flag (Go `CanSet`, false for unexported fields) and the
field type. -/
inductive RType where
  | string
  | int (bits : Nat)
  | uint (bits : Nat)
  | float32
  | float64
  | bool
  | uid
  | time
  | slice (elem : RType)
  | array (size : Nat) (elem : RType)
  | map (key : RType) (value : RType)
  | strukt (name : String) (fields : List (String × Bool × RType))
  | iface
  | ptr (elem : RType)

/-- Go `reflect.Type.Kind`: the named types `UID` and `time.Time` report
their underlying kinds. -/
def RType.kind : RType → RKind
  | .string => .string
  | .int b => .int b
  | .uint b => .uint b
  | .float32 => .float32
  | .float64 => .float64
  | .bool => .bool
  | .uid => .uint 64
  | .time => .strukt
  | .slice _ => .slice
  | .array _ _ => .array
  | .map _ _ => .map
  | .strukt _ _ => .strukt
  | .iface => .iface
  | .ptr _ => .ptr

/-- Dynamically-typed value (Go `interface{}` contents), the output of the
dynamic materializer.  `float32` tags the Go conversion `float32(x)` of a
64-bit payload; the narrowing itself is abstracted (the payload is kept),
since the engine never computes with float values.  `null` is the nil
interface value. -/
inductive Dyn where
  | null
  | str (s : String)
  | int64 (v : Int)
  | uint64 (v : Nat)
  | float64 (v : Rat)
  | float32 (v : Rat)
  | bool (b : Bool)
  | bytes (bs : List Nat)
  | time (t : PTime)
  | uid (v : Nat)
  | arr (vs : List Dyn)
  | dict (entries : List (String × Dyn))

/-- Destination value (the contents of a Go `reflect.Value` slot).
A slice carries its element type, its logical length and its backing
store (whose list length is the capacity; indices at or beyond the
logical length are the not-yet-exposed backing cells).  A map carries
`none` for a nil Go map.  A struct carries its (document key name,
settable, value) fields in declaration order.  A pointer carries `none`
when nil. -/
inductive RVal where
  | str (s : String)
  | int (bits : Nat) (v : Int)
  | uint (bits : Nat) (v : Nat)
  | float32 (v : Rat)
  | float64 (v : Rat)
  | bool (b : Bool)
  | uid (v : Nat)
  | time (t : PTime)
  | slice (elemT : RType) (len : Nat) (store : List RVal)
  | array (elemT : RType) (elems : List RVal)
  | map (keyT : RType) (valT : RType) (contents : Option (List (RVal × RVal)))
  | strukt (name : String) (fields : List (String × Bool × RVal))
  | iface (v : Dyn)
  | ptr (elemT : RType) (contents : Option RVal)

/-- Go `reflect.Value.Type`. -/
def RVal.type : RVal → RType
  | .str _ => .string
  | .int b _ => .int b
  | .uint b _ => .uint b
  | .float32 _ => .float32
  | .float64 _ => .float64
  | .bool _ => .bool
  | .uid _ => .uid
  | .time _ => .time
  | .slice t _ _ => .slice t
  | .array t es => .array es.length t
  | .map k v _ => .map k v
  | .strukt n fs => .strukt n (fs.attach.map fun x => (x.val.1, x.val.2.1, RVal.type x.val.2.2))
  | .iface _ => .iface
  | .ptr t _ => .ptr t
decreasing_by
  obtain ⟨⟨a, b, c⟩, hm⟩ := x
  have h1 := List.sizeOf_lt_of_mem hm
  simp at h1 ⊢
  omega

/-- Go `reflect.New(t).Elem()` / `reflect.MakeSlice` cell contents: the
zero value of a type.  A zero map and a zero pointer are nil; a zero
interface is the nil interface. -/
def zeroVal : RType → RVal
  | .string => .str ""
  | .int b => .int b 0
  | .uint b => .uint b 0
  | .float32 => .float32 0
  | .float64 => .float64 0
  | .bool => .bool false
  | .uid => .uid 0
  | .time => .time ⟨0⟩
  | .slice e => .slice e 0 []
  | .array n e => .array e (List.replicate n (zeroVal e))
  | .map k v => .map k v none
  | .strukt n fs => .strukt n (fs.attach.map fun x => (x.val.1, x.val.2.1, zeroVal x.val.2.2))
  | .iface => .iface .null
  | .ptr e => .ptr e none
decreasing_by
  · simp
  · obtain ⟨⟨a, b, c⟩, hm⟩ := x
    have h1 := List.sizeOf_lt_of_mem hm
    simp at h1 ⊢
    omega

/-- Go conversion `int64(x)` of a `uint64` magnitude: two-complement
reinterpretation. -/
def toInt64 (v : Nat) : Int :=
  if v % 2 ^ 64 < 2 ^ 63 then ((v % 2 ^ 64 : Nat) : Int)
  else ((v % 2 ^ 64 : Nat) : Int) - 2 ^ 64

/-- Go `reflect.Value.SetInt` into a signed slot of the given width:
silent truncation to the slot width (a plain Go integer conversion). -/
def wrapSigned (bits : Nat) (x : Int) : Int :=
  (x + 2 ^ (bits - 1)) % (2 ^ bits : Int) - 2 ^ (bits - 1)

/-- Go `reflect.Value.SetUint` into an unsigned slot of the given width:
silent truncation to the slot width. -/
def wrapUnsigned (bits : Nat) (x : Nat) : Nat :=
  x % 2 ^ bits

/-- Location tag attached to an aggregated failure cause: the wrapping
performed by `fmt.Errorf` in the container decode loops. -/
inductive Tag where
  | element (i : Nat)
  | field (name : String)
  | mapKey (k : String)
deriving DecidableEq

/-- Error values produced by the engine.  `incompatible` is
`incompatibleDecodeTypeError` (carrying the destination type and the node
kind name); `sizingBytes` and `sizingValues` are the two `fmt.Errorf`
sizing errors; `notSettable` is the unwritable-field error; `keyType` is
the non-string-key map error; `parseError` is a failure of the
spec-modelled `mustParse*` primitives, carrying the primitive name and
its input; `tagged` wraps a contained cause with its location;
`multi` is a `multierror.Error` (an ordered list of causes). -/
inductive UErr where
  | incompatible (dest : RType) (src : String)
  | parseError (fn : String) (input : String)
  | sizingBytes (n : Nat) (size : Nat)
  | sizingValues (n : Nat) (size : Nat)
  | notSettable (name : String)
  | keyType (keyT : RType)
  | tagged (tag : Tag) (e : UErr)
  | multi (errs : List UErr)

/-- Go `multierror.Append(resultErr, e)` where `resultErr` is a possibly
nil `error`: a nil accumulator becomes a one-cause collection, an
existing collection is extended, a plain error is first wrapped. -/
def appendErr : Option UErr → UErr → Option UErr
  | none, e => some (.multi [e])
  | some (.multi es), e => some (.multi (es ++ [e]))
  | some e0, e => some (.multi [e0, e])

/-- Decoder configuration (Go `Decoder`): the engine only reads the lax
flag. -/
structure Decoder where
  lax : Bool

/-! ### Spec-modelled string parsing primitives

The `mustParse*` helpers and the textual timestamp layout live outside
`unmarshal.go`; they are modelled from the spec (§4.3): "integer kinds:
parse text as base-10 integer (signed or unsigned per kind); parse
failure propagates as an error", "floating-point kinds: parse text as
decimal float", "boolean kind: parse text via the conventional boolean
literal set", "the library timestamp type: parse text using the fixed
textual property-list timestamp layout, normalize to UTC". -/

/-- Value of a decimal digit. -/
def decDigit? (c : Char) : Option Nat :=
  if '0' ≤ c && c ≤ '9' then some (c.toNat - '0'.toNat) else none

/-- Value of a nonempty all-decimal character run. -/
def decNat? : List Char → Option Nat
  | [] => none
  | cs => cs.foldl (fun acc c => acc.bind fun n => (decDigit? c).map fun d => n * 10 + d)
      (some 0)

/-- Modelled from the spec: `mustParseUint(s, 10, 64)` — parse text as a
base-10 unsigned 64-bit integer; parse failure propagates as an error.
No sign prefix is permitted and the value must fit in 64 bits. -/
def mustParseUint (s : String) : Except UErr Nat :=
  match decNat? s.toList with
  | some n => if n < 2 ^ 64 then .ok n else .error (.parseError "ParseUint" s)
  | none => .error (.parseError "ParseUint" s)

/-- Modelled from the spec: `mustParseInt(s, 10, 64)` — parse text as a
base-10 signed 64-bit integer (optional single sign prefix); parse
failure propagates as an error. -/
def mustParseInt (s : String) : Except UErr Int :=
  let fail : Except UErr Int := .error (.parseError "ParseInt" s)
  match s.toList with
  | '-' :: rest =>
    match decNat? rest with
    | some n => if n ≤ 2 ^ 63 then .ok (-(n : Int)) else fail
    | none => fail
  | '+' :: rest =>
    match decNat? rest with
    | some n => if n < 2 ^ 63 then .ok (n : Int) else fail
    | none => fail
  | cs =>
    match decNat? cs with
    | some n => if n < 2 ^ 63 then .ok (n : Int) else fail
    | none => fail

/-- Leading decimal-digit run of a character list, with the rest. -/
def spanDigits (cs : List Char) : List Char × List Char :=
  (cs.takeWhile (fun c => '0' ≤ c && c ≤ '9'), cs.dropWhile (fun c => '0' ≤ c && c ≤ '9'))

/-- Mantissa parsing for the decimal float layout: digits, an optional
point, more digits; at least one digit overall.  Returns the denoted
rational. -/
def parseMantissa (cs : List Char) : Option Rat :=
  let (intPart, rest) := spanDigits cs
  match rest with
  | '.' :: rest2 =>
    let (fracPart, rest3) := spanDigits rest2
    if rest3 = [] && (intPart ≠ [] || fracPart ≠ []) then
      (decNat? (intPart ++ fracPart ++ ['0'])).map fun n =>
        (n : Rat) / (10 : Rat) ^ (fracPart.length + 1)
    else none
  | [] =>
    if intPart ≠ [] then (decNat? intPart).map fun n => (n : Rat)
    else none
  | _ => none

/-- Splits off an exponent suffix introduced by `e` or `E`. -/
def splitExponent (cs : List Char) : List Char × Option (List Char) :=
  match cs.span (fun c => c ≠ 'e' && c ≠ 'E') with
  | (mant, []) => (mant, none)
  | (mant, _ :: exp) => (mant, some exp)

/-- Signed exponent digits. -/
def parseExp (cs : List Char) : Option Int :=
  match cs with
  | '-' :: rest => (decNat? rest).map fun n => -(n : Int)
  | '+' :: rest => (decNat? rest).map fun n => (n : Int)
  | rest => (decNat? rest).map fun n => (n : Int)

/-- Modelled from the spec: `mustParseFloat(s, 64)` — parse text as a
decimal float (optional sign, decimal mantissa with optional fraction,
optional decimal exponent); parse failure propagates as an error.  The
denoted value is kept as an exact rational, since the engine never
computes with float payloads. -/
def mustParseFloat (s : String) : Except UErr Rat :=
  let fail : Except UErr Rat := .error (.parseError "ParseFloat" s)
  let signed : List Char × Rat :=
    match s.toList with
    | '-' :: rest => (rest, -1)
    | '+' :: rest => (rest, 1)
    | cs => (cs, 1)
  let (mant, exp) := splitExponent signed.1
  match parseMantissa mant with
  | none => fail
  | some m =>
    match exp with
    | none => .ok (signed.2 * m)
    | some ecs =>
      match parseExp ecs with
      | none => fail
      | some e => .ok (signed.2 * m * (10 : Rat) ^ e)

/-- Modelled from the spec: `mustParseBool` — the conventional boolean
literal set (Go `strconv.ParseBool`); parse failure propagates as an
error. -/
def mustParseBool (s : String) : Except UErr Bool :=
  if s = "1" || s = "t" || s = "T" || s = "TRUE" || s = "true" || s = "True" then .ok true
  else if s = "0" || s = "f" || s = "F" || s = "FALSE" || s = "false" || s = "False" then
    .ok false
  else .error (.parseError "ParseBool" s)

/-- Shape of the fixed textual property-list timestamp layout
`2006-01-02 15:04:05 -0700`: per-position character classes. -/
def plistTimeShapeOk (cs : List Char) : Bool :=
  cs.length = 25 &&
    (List.range 25).all fun i =>
      let c := cs.getD i ' '
      if i = 4 || i = 7 then c = '-'
      else if i = 10 || i = 19 then c = ' '
      else if i = 13 || i = 16 then c = ':'
      else if i = 20 then c = '-' || c = '+'
      else ('0' ≤ c && c ≤ '9')

/-- Modelled from the spec: parse text using the fixed textual
property-list timestamp layout and normalize to UTC.  The instant is an
opaque encoding of the date-time fields shifted by the zone offset;
parsing succeeds exactly on strings matching the layout shape. -/
def parsePlistTime (s : String) : Except UErr PTime :=
  let cs := s.toList
  if plistTimeShapeOk cs then
    let num := fun (a b : Nat) => (decNat? ((cs.drop a).take b)).getD 0
    let naive :=
      ((((num 0 4 * 12 + num 5 2) * 31 + num 8 2) * 24 + num 11 2) * 60 + num 14 2) * 60 +
        num 17 2
    let zone : Int := (num 21 2 * 60 + num 23 2 : Nat)
    let zoneSigned : Int := if cs.getD 20 ' ' = '-' then -zone else zone
    .ok ⟨(naive : Int) - zoneSigned * 60⟩
  else .error (.parseError "ParseTime" s)

/-! ### Container decode helpers -/

/-- Last-occurrence lookup in an ordered (key, value) pair list.  The Go
struct path builds `entries` by inserting the dictionary pairs in
document order into a map, so that later duplicate keys overwrite
earlier ones; looking a name up in that map is exactly last-occurrence
lookup in the ordered pair list. -/
def lookupLast {α : Type} (k : String) : List (String × α) → Option α
  | [] => none
  | (k', v) :: rest =>
    match lookupLast k rest with
    | some r => some r
    | none => if k' = k then some v else none

/-- Key comparison used by the Go map model.  Go map key types are
comparable; in the modelled universe the reachable map key values are
strings and interface values wrapping strings (the two targets of the
string conversion), which compare by their dynamic value; composite
values never compare equal. -/
def keyBeq : RVal → RVal → Bool
  | .str a, .str b => a = b
  | .int ab av, .int bb bv => ab = bb && av = bv
  | .uint ab av, .uint bb bv => ab = bb && av = bv
  | .bool a, .bool b => a = b
  | .uid a, .uid b => a = b
  | .time a, .time b => a = b
  | .float32 a, .float32 b => a = b
  | .float64 a, .float64 b => a = b
  | .iface (.str a), .iface (.str b) => a = b
  | _, _ => false

/-- Go `reflect.Value.SetMapIndex`: replace the entry for an existing
key, otherwise add a new entry. -/
def mapSet : List (RVal × RVal) → RVal → RVal → List (RVal × RVal)
  | [], k, v => [(k, v)]
  | (k', v') :: rest, k, v =>
    if keyBeq k' k then (k', v) :: rest else (k', v') :: mapSet rest k v

/-- Go map indexing (for stating properties of the decoded map). -/
def mapLookup : List (RVal × RVal) → RVal → Option RVal
  | [], _ => none
  | (k', v') :: rest, k => if keyBeq k' k then some v' else mapLookup rest k

/-- Go `stringType.ConvertibleTo(t)`.  In the modelled type universe
`string` is convertible to `string` itself and to the empty interface
(a conversion to an implemented interface type); named string types are
absent, and the byte/rune slice conversions cannot appear as key types
because slices are not valid Go map key types. -/
def stringConvertibleTo : RType → Bool
  | .string => true
  | .iface => true
  | _ => false

/-- Go `reflect.ValueOf(k).Convert(typ.Key())`: only invoked after the
convertibility guard.  Conversion to the string key type is the
identity injection; conversion to the empty-interface key type wraps
the string in an interface value. -/
def convertStringTo : RType → String → RVal
  | .iface, s => .iface (.str s)
  | _, s => .str s

/-- Go `growSliceCap`: doubling below 1024, 25% growth above. -/
def growSliceCap (cap : Nat) : Nat :=
  if cap = 0 then 4
  else if cap < 1024 then cap * 2
  else cap + cap / 4

theorem lt_growSliceCap (c : Nat) : c < growSliceCap c := by
  unfold growSliceCap
  split
  · omega
  · split
    · omega
    · omega

/-- Go capacity growth loop: `for ncap < cnt { ncap = growSliceCap(ncap) }`. -/
def growCapLoop (ncap cnt : Nat) : Nat :=
  if ncap < cnt then growCapLoop (growSliceCap ncap) cnt else ncap
termination_by cnt - ncap
decreasing_by
  have h1 := lt_growSliceCap ncap
  omega

/-- Growth step of `unmarshalArray` for a slice destination of logical
length `len`, backing capacity `store.length` and `n` incoming
elements: when the backing is too small for `n + len` cells, a fresh
zeroed backing of the grown capacity receives the first `len` old
cells (Go `MakeSlice` + `Copy`); otherwise the backing is kept. -/
def sliceGrown (elemT : RType) (len : Nat) (store : List RVal) (n : Nat) : List RVal :=
  if store.length < n + len then
    store.take len ++ List.replicate (growCapLoop store.length (n + len) - len) (zeroVal elemT)
  else store

/-- Element loop of `unmarshalArray`: decode each element into the
destination cell at the running index `n`, aggregating a tagged cause on
failure and continuing with the next element. -/
def arrLoop {α : Type} (dec : α → RVal → RVal × Option UErr) :
    List α → Nat → List RVal → Option UErr → List RVal × Option UErr
  | [], _, store, err => (store, err)
  | sv :: rest, n, store, err =>
    let r := dec sv (store.getD n (.iface .null))
    let err' :=
      match r.snd with
      | none => err
      | some e => appendErr err (.tagged (.element n) e)
    arrLoop dec rest (n + 1) (store.set n r.fst) err'

/-- Go `unmarshalArray`, generic in the element representation so that
the recursive decoder can be passed membership evidence.  For a slice
destination the capacity is grown when needed (a fresh zeroed backing
of the grown capacity receives the first `len` old cells) and the
logical length is extended to cover the incoming elements, which are
then decoded starting at index `len`; for a fixed-size array the source
element count must not exceed the capacity, and decode starts at index
0; any other destination is a type mismatch. -/
def unmarshalArrayWith {α : Type} (dec : α → RVal → RVal × Option UErr)
    (values : List α) (val : RVal) : RVal × Option UErr :=
  match val with
  | .slice elemT len store =>
    let r := arrLoop dec values len (sliceGrown elemT len store values.length) none
    (.slice elemT (values.length + len) r.fst, r.snd)
  | .array elemT elems =>
    if elems.length < values.length then
      (val, some (.sizingValues values.length elems.length))
    else
      let r := arrLoop dec values 0 elems none
      (.array elemT r.fst, r.snd)
  | _ => (val, some (.incompatible val.type "array"))

/-- Field loop of the struct path of `unmarshalDictionary`: for each
field descriptor in order, when the dictionary has an entry for the
field name, decode it into the field (aggregating a tagged cause on
failure) if the field is settable, else aggregate an unwritable-field
cause; fields without an entry are left untouched. -/
def structLoop {α : Type} (dec : α → RVal → RVal × Option UErr)
    (entries : List (String × α)) :
    List (String × Bool × RVal) → Option UErr → List (String × Bool × RVal) × Option UErr
  | [], err => ([], err)
  | (nm, canSet, fv) :: rest, err =>
    match lookupLast nm entries with
    | some ent =>
      if canSet then
        let r := dec ent fv
        let err' :=
          match r.snd with
          | none => err
          | some e => appendErr err (.tagged (.field nm) e)
        let tail := structLoop dec entries rest err'
        ((nm, canSet, r.fst) :: tail.fst, tail.snd)
      else
        let tail := structLoop dec entries rest (appendErr err (.notSettable nm))
        ((nm, canSet, fv) :: tail.fst, tail.snd)
    | none =>
      let tail := structLoop dec entries rest err
      ((nm, canSet, fv) :: tail.fst, tail.snd)

/-- Pair loop of the map path of `unmarshalDictionary`: for each
(key, node) pair in document order, decode the node into a freshly
allocated zero value of the element type; on failure aggregate a tagged
cause and set nothing for that pair, on success set the converted key
to the decoded element (overwriting any earlier entry for that key). -/
def mapLoop {α : Type} (dec : α → RVal → RVal × Option UErr) (keyT valT : RType) :
    List (String × α) → List (RVal × RVal) → Option UErr → List (RVal × RVal) × Option UErr
  | [], m, err => (m, err)
  | (k, sv) :: rest, m, err =>
    let keyv := convertStringTo keyT k
    let mapElem := zeroVal valT
    let r := dec sv mapElem
    match r.snd with
    | some e => mapLoop dec keyT valT rest m (appendErr err (.tagged (.mapKey k) e))
    | none => mapLoop dec keyT valT rest (mapSet m keyv r.fst) err

/-- Go `unmarshalDictionary`, generic in the node representation.  The
struct path consumes the field descriptors (modelled from the spec: the
external provider `getTypeInfo` yields, for a record type, the ordered
list of (document key name, accessor) pairs — here the struct fields
themselves, in order — and never fails for the modelled types).  The
map path allocates a nil destination map, requires the key type to be
convertible from string (else a fatal key-type error), and runs the
pair loop. -/
def unmarshalDictionaryWith {α : Type} (dec : α → RVal → RVal × Option UErr)
    (keys : List String) (values : List α) (val : RVal) : RVal × Option UErr :=
  match val with
  | .strukt name fields =>
    let entries := keys.zip values
    let r := structLoop dec entries fields none
    (.strukt name r.fst, r.snd)
  | .map keyT valT contents =>
    let m0 := contents.getD []
    if stringConvertibleTo keyT then
      let r := mapLoop dec keyT valT (keys.zip values) m0 none
      (.map keyT valT (some r.fst), r.snd)
    else (.map keyT valT (some m0), some (.keyType keyT))
  | _ => (val, some (.incompatible val.type "dictionary"))

/-- Go `unmarshalLaxString`: lax coercion of a textual node, dispatched
on the destination kind.  The named type `UID` has kind `uint 64` and so
takes the unsigned branch; `time.Time` has kind struct and is recognized
by type; any other kind (including other structs) is a type mismatch
carrying the literal node kind name `string`. -/
def unmarshalLaxString (s : String) (val : RVal) : RVal × Option UErr :=
  match val with
  | .int bits _ =>
    match mustParseInt s with
    | .ok i => (.int bits (wrapSigned bits i), none)
    | .error e => (val, some e)
  | .uint bits _ =>
    match mustParseUint s with
    | .ok u => (.uint bits (wrapUnsigned bits u), none)
    | .error e => (val, some e)
  | .uid _ =>
    match mustParseUint s with
    | .ok u => (.uid (wrapUnsigned 64 u), none)
    | .error e => (val, some e)
  | .float32 _ =>
    match mustParseFloat s with
    | .ok f => (.float32 f, none)
    | .error e => (val, some e)
  | .float64 _ =>
    match mustParseFloat s with
    | .ok f => (.float64 f, none)
    | .error e => (val, some e)
  | .bool _ =>
    match mustParseBool s with
    | .ok b => (.bool b, none)
    | .error e => (val, some e)
  | .time _ =>
    match parsePlistTime s with
    | .ok t => (.time t, none)
    | .error e => (val, some e)
  | _ => (val, some (.incompatible val.type "string"))

/-! ### Dynamic materializer -/

/-- Go `arrayInterface`: materialize each element in order. -/
def arrayInterfaceWith {α : Type} (f : α → Dyn) (values : List α) : List Dyn :=
  values.map f

/-- Go map insertion `out[k] = v` on the assoc-list model of a string
keyed map: replace the entry for an existing key, otherwise append. -/
def goMapInsert {β : Type} : List (String × β) → String → β → List (String × β)
  | [], k, v => [(k, v)]
  | (k', v') :: rest, k, v =>
    if k' = k then (k', v) :: rest else (k', v') :: goMapInsert rest k v

/-- Go `dictionaryInterface`: build a string-keyed map by inserting each
materialized pair in document order. -/
def dictionaryInterfaceWith {α : Type} (f : α → Dyn) (keys : List String) (values : List α) :
    List (String × Dyn) :=
  (keys.zip values).foldl (fun out kv => goMapInsert out kv.1 (f kv.2)) []

/-- Go `valueInterface`: the dynamic materializer.  Total over the
closed node-kind set; a nil node maps to the nil interface value. -/
def valueInterface (p : Decoder) : Option CfValue → Dyn
  | none => .null
  | some pv =>
    match pv with
    | .string s => .str s
    | .number v signed => if signed then .int64 (toInt64 v) else .uint64 v
    | .real v wide => if wide then .float64 v else .float32 v
    | .boolean b => .bool b
    | .array vs => .arr (arrayInterfaceWith (fun x => valueInterface p (some x.val)) vs.attach)
    | .dict keys values =>
      .dict (dictionaryInterfaceWith (fun x => valueInterface p (some x.val)) keys values.attach)
    | .data bs => .bytes bs
    | .date t => .time t
    | .uid v => .uid v
decreasing_by
  · have h1 := List.sizeOf_lt_of_mem x.property
    simp
    omega
  · have h1 := List.sizeOf_lt_of_mem x.property
    simp
    omega

/-! ### Dispatch core -/

/-- Pointer depth of a type. -/
def typePtrDepth : RType → Nat
  | .ptr t => typePtrDepth t + 1
  | _ => 0

/-- Termination measure for the pointer resolution loop: remaining
indirection levels of a destination value (a nil pointer still has the
levels its type promises, since resolution allocates a zero target). -/
def ptrMeasure : RVal → Nat
  | .ptr t none => typePtrDepth t + 1
  | .ptr _ (some c) => ptrMeasure c + 1
  | _ => 0

theorem ptrMeasure_zeroVal (t : RType) : ptrMeasure (zeroVal t) = typePtrDepth t := by
  cases t <;> simp [zeroVal, ptrMeasure, typePtrDepth]

/-- Go `(*Decoder).unmarshal`: the dispatch core.  A nil node is a
no-op; pointer indirection is resolved (allocating a zero target for a
nil pointer) before dispatch — modelled by recursion that writes the
updated target back through the pointer; an empty-interface destination
receives the dynamic materialization.  The custom decode hooks
(`Unmarshaler`, `encoding.TextUnmarshaler`) are omitted: no destination
type of the modelled universe implements either capability, the one Go
implementor that would (`time.Time`, for `TextUnmarshaler`) being
explicitly excluded by the timeType guard in the source.  A `Date` node
decodes only into the timestamp type; the remaining kinds dispatch
structurally as in the source switch. -/
def unmarshal (p : Decoder) (pval : Option CfValue) (val : RVal) : RVal × Option UErr :=
  match pval with
  | none => (val, none)
  | some pv =>
    match val with
    | .ptr elemT contents =>
      let r := unmarshal p (some pv) (contents.getD (zeroVal elemT))
      (.ptr elemT (some r.fst), r.snd)
    | .iface _ => (.iface (valueInterface p (some pv)), none)
    | _ =>
      let incompatibleTypeError := UErr.incompatible val.type pv.typeName
      match pv with
      | .date t =>
        match val with
        | .time _ => (.time t, none)
        | _ => (val, some incompatibleTypeError)
      | .string s =>
        match val with
        | .str _ => (.str s, none)
        | _ =>
          if p.lax then unmarshalLaxString s val
          else (val, some incompatibleTypeError)
      | .number v _ =>
        match val with
        | .int bits _ => (.int bits (wrapSigned bits (toInt64 v)), none)
        | .uint bits _ => (.uint bits (wrapUnsigned bits v), none)
        | .uid _ => (.uid (wrapUnsigned 64 v), none)
        | _ => (val, some incompatibleTypeError)
      | .real v _ =>
        match val with
        | .float32 _ => (.float32 v, none)
        | .float64 _ => (.float64 v, none)
        | _ => (val, some incompatibleTypeError)
      | .boolean b =>
        match val with
        | .bool _ => (.bool b, none)
        | _ => (val, some incompatibleTypeError)
      | .data bs =>
        match val with
        | .slice elemT _ _ =>
          if elemT.kind = .uint 8 then
            (.slice elemT bs.length (bs.map fun b => RVal.uint 8 b), none)
          else (val, some incompatibleTypeError)
        | .array elemT elems =>
          if elemT.kind = .uint 8 then
            if elems.length < bs.length then
              (val, some (.sizingBytes bs.length elems.length))
            else (.array elemT ((bs.map fun b => RVal.uint 8 b) ++ elems.drop bs.length), none)
          else (val, some incompatibleTypeError)
        | _ => (val, some incompatibleTypeError)
      | .uid v =>
        match val with
        | .uid _ => (.uid (wrapUnsigned 64 v), none)
        | .int bits _ => (.int bits (wrapSigned bits (toInt64 v)), none)
        | .uint bits _ => (.uint bits (wrapUnsigned bits v), none)
        | _ => (val, some incompatibleTypeError)
      | .array vs =>
        unmarshalArrayWith (fun x slot => unmarshal p (some x.val) slot) vs.attach val
      | .dict keys values =>
        unmarshalDictionaryWith (fun x slot => unmarshal p (some x.val) slot)
          keys values.attach val
termination_by (sizeOf pval, ptrMeasure val)
decreasing_by
  · apply Prod.Lex.right
    cases contents with
    | none => simp [ptrMeasure, ptrMeasure_zeroVal]
    | some c => simp [ptrMeasure]
  · apply Prod.Lex.left
    have h1 := List.sizeOf_lt_of_mem x.property
    simp
    omega
  · apply Prod.Lex.left
    have h1 := List.sizeOf_lt_of_mem x.property
    simp
    omega

/-! ### Specification-side definitions used by the claim statements -/

/-- Scalar document nodes in the sense of the claims: every kind except
`Date`, `Array` and `Dictionary`. -/
def CfValue.isScalar : CfValue → Bool
  | .string _ => true
  | .number _ _ => true
  | .real _ _ => true
  | .boolean _ => true
  | .data _ => true
  | .uid _ => true
  | _ => false

/-- The §4.1 step 7 scalar compatibility table, written from the spec
text: String→text slot, Number→signed or unsigned integer slot,
Real→float slot of either precision, Boolean→bool slot, Data→byte
sequence (growable or fixed-size), UID→the dedicated reference type or
any integer slot. -/
def specScalarTable (pv : CfValue) (t : RType) : Bool :=
  match pv with
  | .string _ => t.kind = RKind.string
  | .number _ _ =>
    match t.kind with
    | .int _ => true
    | .uint _ => true
    | _ => false
  | .real _ _ => t.kind = RKind.float32 || t.kind = RKind.float64
  | .boolean _ => t.kind = RKind.bool
  | .data _ =>
    match t with
    | .slice e => e.kind = RKind.uint 8
    | .array _ e => e.kind = RKind.uint 8
    | _ => false
  | .uid _ =>
    match t with
    | .uid => true
    | _ =>
      match t.kind with
      | .int _ => true
      | .uint _ => true
      | _ => false
  | _ => false

/-- Size side condition on the scalar table: a `Data` payload fits a
fixed-size byte array only when the array is at least as long as the
payload.  All other pairs carry no size condition. -/
def dataFits : CfValue → RVal → Bool
  | .data bs, .array _ elems => bs.length ≤ elems.length
  | _, _ => true

/-- Ordered stream of the aggregated causes produced by the sequence
element loop: the cause recorded for each failing element, tagged with
the running destination index, with decode continuing through
failures (each element is decoded into its own cell regardless of
earlier failures). -/
def elemErrs {α : Type} (dec : α → RVal → RVal × Option UErr) :
    List α → Nat → List RVal → List UErr
  | [], _, _ => []
  | sv :: rest, n, store =>
    let r := dec sv (store.getD n (.iface .null))
    let tail := elemErrs dec rest (n + 1) (store.set n r.fst)
    match r.snd with
    | none => tail
    | some e => .tagged (.element n) e :: tail

/-- Collapse of an ordered cause list into the engine result: an empty
collection is success, a nonempty one a multi-cause error. -/
def multiOf : List UErr → Option UErr
  | [] => none
  | es => some (.multi es)

/-- Restriction of a parallel key/value pair sequence to the keys
satisfying a predicate, preserving document order. -/
def restrictKeys (pk : String → Bool) (keys : List String) (values : List CfValue) :
    List String × List CfValue :=
  let pairs := (keys.zip values).filter fun kv => pk kv.1
  (pairs.map Prod.fst, pairs.map Prod.snd)

/-! ### Generic lemmas: plain-list forms of the attached loops -/

theorem arrLoop_map {α β : Type} (dec : β → RVal → RVal × Option UErr) (g : α → β)
    (vs : List α) (n : Nat) (store : List RVal) (err : Option UErr) :
    arrLoop dec (vs.map g) n store err = arrLoop (fun a => dec (g a)) vs n store err := by
  induction vs generalizing n store err with
  | nil => rfl
  | cons v rest ih => simp [arrLoop, ih]

theorem unmarshalArrayWith_map {α β : Type} (dec : β → RVal → RVal × Option UErr) (g : α → β)
    (vs : List α) (val : RVal) :
    unmarshalArrayWith dec (vs.map g) val = unmarshalArrayWith (fun a => dec (g a)) vs val := by
  cases val <;> simp [unmarshalArrayWith, arrLoop_map]

theorem lookupLast_map {α β : Type} (g : α → β) (k : String) (l : List (String × α)) :
    lookupLast k (l.map (Prod.map id g)) = (lookupLast k l).map g := by
  induction l with
  | nil => rfl
  | cons kv rest ih =>
    obtain ⟨k', v⟩ := kv
    simp only [List.map_cons, Prod.map, id_eq, lookupLast, ih]
    cases lookupLast k rest with
    | some r => simp
    | none =>
      simp only [Option.map_none']
      split <;> simp

theorem structLoop_map {α β : Type} (dec : β → RVal → RVal × Option UErr) (g : α → β)
    (entries : List (String × α)) (fields : List (String × Bool × RVal)) (err : Option UErr) :
    structLoop dec (entries.map (Prod.map id g)) fields err
      = structLoop (fun a => dec (g a)) entries fields err := by
  induction fields generalizing err with
  | nil => rfl
  | cons f rest ih =>
    obtain ⟨nm, canSet, fv⟩ := f
    simp only [structLoop, lookupLast_map]
    cases h : lookupLast nm entries with
    | none => simp [ih]
    | some ent => cases canSet <;> simp [ih]

theorem mapLoop_map {α β : Type} (dec : β → RVal → RVal × Option UErr) (g : α → β)
    (keyT valT : RType) (pairs : List (String × α)) (m : List (RVal × RVal))
    (err : Option UErr) :
    mapLoop dec keyT valT (pairs.map (Prod.map id g)) m err
      = mapLoop (fun a => dec (g a)) keyT valT pairs m err := by
  induction pairs generalizing m err with
  | nil => rfl
  | cons kv rest ih =>
    obtain ⟨k, sv⟩ := kv
    simp only [List.map_cons, Prod.map, id_eq, mapLoop]
    cases (dec (g sv) (zeroVal valT)).snd <;> simp [ih]

theorem unmarshalDictionaryWith_map {α β : Type} (dec : β → RVal → RVal × Option UErr)
    (g : α → β) (keys : List String) (values : List α) (val : RVal) :
    unmarshalDictionaryWith dec keys (values.map g) val
      = unmarshalDictionaryWith (fun a => dec (g a)) keys values val := by
  cases val <;>
    simp [unmarshalDictionaryWith, List.zip_map_right, structLoop_map, mapLoop_map]

theorem unmarshal_some_array_eq (p : Decoder) (vs : List CfValue) (val : RVal) :
    unmarshalArrayWith (fun (x : {a // a ∈ vs}) slot => unmarshal p (some x.val) slot)
        vs.attach val
      = unmarshalArrayWith (fun v slot => unmarshal p (some v) slot) vs val := by
  have h := unmarshalArrayWith_map (fun v slot => unmarshal p (some v) slot)
    (Subtype.val (p := fun a => a ∈ vs)) vs.attach val
  rw [List.attach_map_subtype_val] at h
  exact h.symm

theorem unmarshal_some_dict_eq (p : Decoder) (keys : List String) (values : List CfValue)
    (val : RVal) :
    unmarshalDictionaryWith (fun (x : {a // a ∈ values}) slot => unmarshal p (some x.val) slot)
        keys values.attach val
      = unmarshalDictionaryWith (fun v slot => unmarshal p (some v) slot) keys values val := by
  have h := unmarshalDictionaryWith_map (fun v slot => unmarshal p (some v) slot)
    (Subtype.val (p := fun a => a ∈ values)) keys values.attach val
  rw [List.attach_map_subtype_val] at h
  exact h.symm

theorem unmarshal_array_into_slice (p : Decoder) (vs : List CfValue) (elemT : RType)
    (len : Nat) (store : List RVal) :
    unmarshal p (some (.array vs)) (.slice elemT len store)
      = unmarshalArrayWith (fun v slot => unmarshal p (some v) slot) vs
          (.slice elemT len store) := by
  rw [unmarshal]
  · exact unmarshal_some_array_eq p vs _
  · rintro _ _ ⟨⟩
  · rintro _ ⟨⟩

theorem unmarshal_array_into_array (p : Decoder) (vs : List CfValue) (elemT : RType)
    (elems : List RVal) :
    unmarshal p (some (.array vs)) (.array elemT elems)
      = unmarshalArrayWith (fun v slot => unmarshal p (some v) slot) vs
          (.array elemT elems) := by
  rw [unmarshal]
  · exact unmarshal_some_array_eq p vs _
  · rintro _ _ ⟨⟩
  · rintro _ ⟨⟩

theorem unmarshal_dict_into_strukt (p : Decoder) (keys : List String)
    (values : List CfValue) (name : String) (fields : List (String × Bool × RVal)) :
    unmarshal p (some (.dict keys values)) (.strukt name fields)
      = unmarshalDictionaryWith (fun v slot => unmarshal p (some v) slot) keys values
          (.strukt name fields) := by
  rw [unmarshal]
  · exact unmarshal_some_dict_eq p keys values _
  · rintro _ _ ⟨⟩
  · rintro _ ⟨⟩

theorem unmarshal_dict_into_map (p : Decoder) (keys : List String)
    (values : List CfValue) (keyT valT : RType) (contents : Option (List (RVal × RVal))) :
    unmarshal p (some (.dict keys values)) (.map keyT valT contents)
      = unmarshalDictionaryWith (fun v slot => unmarshal p (some v) slot) keys values
          (.map keyT valT contents) := by
  rw [unmarshal]
  · exact unmarshal_some_dict_eq p keys values _
  · rintro _ _ ⟨⟩
  · rintro _ ⟨⟩

theorem dictionaryInterfaceWith_map {α β : Type} (f : β → Dyn) (g : α → β)
    (keys : List String) (values : List α) :
    dictionaryInterfaceWith f keys (values.map g)
      = dictionaryInterfaceWith (fun a => f (g a)) keys values := by
  simp [dictionaryInterfaceWith, List.zip_map_right, List.foldl_map]

theorem valueInterface_array_eq (p : Decoder) (vs : List CfValue) :
    valueInterface p (some (.array vs)) = .arr (vs.map fun v => valueInterface p (some v)) := by
  rw [valueInterface]
  simp [arrayInterfaceWith, List.attach_map_coe]

theorem valueInterface_dict_eq (p : Decoder) (keys : List String) (values : List CfValue) :
    valueInterface p (some (.dict keys values))
      = .dict (dictionaryInterfaceWith (fun v => valueInterface p (some v)) keys values) := by
  rw [valueInterface]
  have h := dictionaryInterfaceWith_map (fun v => valueInterface p (some v))
    (Subtype.val (p := fun a => a ∈ values)) keys values.attach
  rw [List.attach_map_subtype_val] at h
  rw [← h]

/-! ### Claim theorems -/

/-- C8: the dynamic materializer is a total pure function over the
closed node-kind set — it returns a value (never an error) for every
node, mapping String→text, Number→signed 64-bit if the signed flag is
set else unsigned 64-bit, Real→64-bit float if wide else 32-bit float,
Boolean→bool, Data→raw bytes, Date→timestamp, UID→the dedicated
reference type, Array→the ordered sequence of recursively materialized
elements, Dictionary→a string-keyed mapping of recursively materialized
values, and an absent node to the null-equivalent. -/
theorem valueInterface_total_mapping (p : Decoder) :
    valueInterface p none = Dyn.null ∧
    (∀ s, valueInterface p (some (.string s)) = .str s) ∧
    (∀ v sg, valueInterface p (some (.number v sg))
      = if sg then .int64 (toInt64 v) else .uint64 v) ∧
    (∀ v w, valueInterface p (some (.real v w)) = if w then .float64 v else .float32 v) ∧
    (∀ b, valueInterface p (some (.boolean b)) = .bool b) ∧
    (∀ bs, valueInterface p (some (.data bs)) = .bytes bs) ∧
    (∀ t, valueInterface p (some (.date t)) = .time t) ∧
    (∀ u, valueInterface p (some (.uid u)) = .uid u) ∧
    (∀ vs, valueInterface p (some (.array vs))
      = .arr (vs.map fun v => valueInterface p (some v))) ∧
    (∀ keys values, valueInterface p (some (.dict keys values))
      = .dict (dictionaryInterfaceWith (fun v => valueInterface p (some v)) keys values)) := by
  refine ⟨by rw [valueInterface], fun s => by rw [valueInterface],
    fun v sg => by rw [valueInterface], fun v w => by rw [valueInterface],
    fun b => by rw [valueInterface], fun bs => by rw [valueInterface],
    fun t => by rw [valueInterface], fun u => by rw [valueInterface],
    valueInterface_array_eq p, valueInterface_dict_eq p⟩

/-- C4: in lax mode, a String node aimed at an integer, float or bool
destination whose text fails to parse (base-10 integer, decimal float,
boolean literal respectively) produces the parse failure as the error
returned from the decode call, leaving the destination unchanged. -/
theorem lax_string_parse_failure (s : String) (e : UErr) :
    (∀ (bits : Nat) (v : Int), mustParseInt s = .error e →
      unmarshal ⟨true⟩ (some (.string s)) (.int bits v) = (.int bits v, some e)) ∧
    (∀ (bits : Nat) (v : Nat), mustParseUint s = .error e →
      unmarshal ⟨true⟩ (some (.string s)) (.uint bits v) = (.uint bits v, some e)) ∧
    (∀ (v : Rat), mustParseFloat s = .error e →
      unmarshal ⟨true⟩ (some (.string s)) (.float32 v) = (.float32 v, some e)) ∧
    (∀ (v : Rat), mustParseFloat s = .error e →
      unmarshal ⟨true⟩ (some (.string s)) (.float64 v) = (.float64 v, some e)) ∧
    (∀ (b : Bool), mustParseBool s = .error e →
      unmarshal ⟨true⟩ (some (.string s)) (.bool b) = (.bool b, some e)) := by
  refine ⟨fun bits v h => ?_, fun bits v h => ?_, fun v h => ?_, fun v h => ?_,
    fun b h => ?_⟩ <;>
    simp [unmarshal, unmarshalLaxString, h]

/-- Closed witness for C4 at concrete unparsable inputs for each of the
covered destination kinds. -/
theorem lax_string_parse_failure_witness :
    mustParseInt "zz" = .error (.parseError "ParseInt" "zz") ∧
    mustParseUint "zz" = .error (.parseError "ParseUint" "zz") ∧
    mustParseFloat "zz" = .error (.parseError "ParseFloat" "zz") ∧
    mustParseBool "zz" = .error (.parseError "ParseBool" "zz") ∧
    unmarshal ⟨true⟩ (some (.string "zz")) (.int 64 7)
      = (.int 64 7, some (.parseError "ParseInt" "zz")) ∧
    unmarshal ⟨true⟩ (some (.string "zz")) (.uint 8 3)
      = (.uint 8 3, some (.parseError "ParseUint" "zz")) ∧
    unmarshal ⟨true⟩ (some (.string "zz")) (.float32 0)
      = (.float32 0, some (.parseError "ParseFloat" "zz")) ∧
    unmarshal ⟨true⟩ (some (.string "zz")) (.float64 0)
      = (.float64 0, some (.parseError "ParseFloat" "zz")) ∧
    unmarshal ⟨true⟩ (some (.string "zz")) (.bool false)
      = (.bool false, some (.parseError "ParseBool" "zz")) :=
  ⟨by rfl, by rfl, by rfl, by rfl,
    (lax_string_parse_failure "zz" _).1 64 7 (by rfl),
    (lax_string_parse_failure "zz" _).2.1 8 3 (by rfl),
    (lax_string_parse_failure "zz" _).2.2.1 0 (by rfl),
    (lax_string_parse_failure "zz" _).2.2.2.1 0 (by rfl),
    (lax_string_parse_failure "zz" _).2.2.2.2 false (by rfl)⟩

/-- C5: an Array node with more elements than a fixed-size destination
array has capacity yields the sizing error and leaves the destination
completely unchanged. -/
theorem array_overflow_sizing (p : Decoder) (vs : List CfValue) (elemT : RType)
    (elems : List RVal) (h : elems.length < vs.length) :
    unmarshal p (some (.array vs)) (.array elemT elems)
      = (.array elemT elems, some (.sizingValues vs.length elems.length)) := by
  rw [unmarshal_array_into_array]
  simp [unmarshalArrayWith, h]

/-- Closed witness for C5: two incoming elements into a one-element
array. -/
theorem array_overflow_sizing_witness :
    (1 : Nat) < 2 ∧
    unmarshal ⟨false⟩ (some (.array [.boolean true, .boolean false]))
        (.array .bool [.bool false])
      = (.array .bool [.bool false], some (.sizingValues 2 1)) :=
  ⟨by decide, array_overflow_sizing ⟨false⟩ [.boolean true, .boolean false] .bool
    [.bool false] (by decide)⟩

/-- C9: a Dictionary node decoded into a nil map whose key type is not
convertible from string first installs a fresh empty map in the
destination and then fails with the fatal key-type error — the
destination is mutated even though the call fails. -/
theorem nil_map_keytype_mutation (p : Decoder) (keys : List String)
    (values : List CfValue) (keyT valT : RType) (h : stringConvertibleTo keyT = false) :
    unmarshal p (some (.dict keys values)) (.map keyT valT none)
      = (.map keyT valT (some []), some (.keyType keyT)) := by
  rw [unmarshal_dict_into_map]
  simp [unmarshalDictionaryWith, h]

/-- Closed witness for C9: an integer-keyed nil map destination. -/
theorem nil_map_keytype_mutation_witness :
    stringConvertibleTo (.int 64) = false ∧
    unmarshal ⟨false⟩ (some (.dict ["a"] [.boolean true])) (.map (.int 64) .bool none)
      = (.map (.int 64) .bool (some []), some (.keyType (.int 64))) :=
  ⟨by rfl, nil_map_keytype_mutation ⟨false⟩ ["a"] [.boolean true] (.int 64) .bool (by rfl)⟩

/-! ### Sequence decode lemmas -/

theorem growCapLoop_ge (ncap cnt : Nat) : cnt ≤ growCapLoop ncap cnt := by
  generalize hm : cnt - ncap = m
  induction m using Nat.strong_induction_on generalizing ncap with
  | _ m ih =>
    rw [growCapLoop]
    split
    case isTrue h =>
      have h2 := lt_growSliceCap ncap
      exact ih (cnt - growSliceCap ncap) (by omega) (growSliceCap ncap) rfl
    case isFalse h => omega

theorem arrLoop_length {α : Type} (dec : α → RVal → RVal × Option UErr) (vs : List α) :
    ∀ (n : Nat) (store : List RVal) (err : Option UErr),
      ((arrLoop dec vs n store err).fst).length = store.length := by
  induction vs with
  | nil => intro n store err; rfl
  | cons v rest ih =>
    intro n store err
    simp only [arrLoop]
    rw [ih]
    simp

theorem arrLoop_getElem?_lt {α : Type} (dec : α → RVal → RVal × Option UErr) (vs : List α) :
    ∀ (n : Nat) (store : List RVal) (err : Option UErr) (i : Nat), i < n →
      (arrLoop dec vs n store err).fst[i]? = store[i]? := by
  induction vs with
  | nil => intro n store err i h; rfl
  | cons v rest ih =>
    intro n store err i h
    simp only [arrLoop]
    rw [ih _ _ _ i (by omega), List.getElem?_set_ne (by omega)]

theorem arrLoop_getElem?_elem {α : Type} (dec : α → RVal → RVal × Option UErr) (vs : List α) :
    ∀ (n : Nat) (store : List RVal) (err : Option UErr) (i : Nat) (h : i < vs.length),
      n + vs.length ≤ store.length →
      (arrLoop dec vs n store err).fst[n + i]?
        = some (dec vs[i] (store.getD (n + i) (.iface .null))).fst := by
  induction vs with
  | nil =>
    intro n store err i h
    simp at h
  | cons v rest ih =>
    intro n store err i h hlen
    simp only [List.length_cons] at h hlen
    match i with
    | 0 =>
      simp only [arrLoop, List.getElem_cons_zero, Nat.add_zero]
      rw [arrLoop_getElem?_lt _ _ _ _ _ n (by omega),
        List.getElem?_set_self (by omega)]
    | Nat.succ j =>
      simp only [arrLoop, List.getElem_cons_succ]
      have h2 := ih (n + 1) (store.set n (dec v (store.getD n (.iface .null))).fst)
        (match (dec v (store.getD n (.iface .null))).snd with
          | none => err
          | some e => appendErr err (.tagged (.element n) e)) j (by omega)
        (by simp; omega)
      rw [show n + (j + 1) = n + 1 + j by omega, h2]
      simp only [List.getD_eq_getElem?_getD]
      rw [List.getElem?_set_ne (by omega)]

theorem arrLoop_snd_eq {α : Type} (dec : α → RVal → RVal × Option UErr) (vs : List α) :
    ∀ (n : Nat) (store : List RVal) (err : Option UErr),
      (arrLoop dec vs n store err).snd
        = (elemErrs dec vs n store).foldl appendErr err := by
  induction vs with
  | nil => intro n store err; rfl
  | cons v rest ih =>
    intro n store err
    simp only [arrLoop, elemErrs]
    cases hsnd : (dec v (store.getD n (.iface .null))).snd with
    | none => simp only [hsnd, ih, List.foldl_cons]
    | some e => simp only [hsnd, ih, List.foldl_cons]

theorem foldl_appendErr_multi (es : List UErr) :
    ∀ acc : List UErr, es.foldl appendErr (some (.multi acc)) = some (.multi (acc ++ es)) := by
  induction es with
  | nil => intro acc; simp
  | cons e rest ih =>
    intro acc
    simp only [List.foldl_cons, appendErr, ih]
    simp

theorem foldl_appendErr_none (es : List UErr) :
    es.foldl appendErr none = multiOf es := by
  cases es with
  | nil => rfl
  | cons e rest =>
    simp only [List.foldl_cons, appendErr, foldl_appendErr_multi, multiOf]
    simp

theorem mem_elemErrs {α : Type} (dec : α → RVal → RVal × Option UErr) (vs : List α) :
    ∀ (n : Nat) (store : List RVal) (i : Nat) (h : i < vs.length) (e : UErr),
      (dec vs[i] (store.getD (n + i) (.iface .null))).snd = some e →
      UErr.tagged (.element (n + i)) e ∈ elemErrs dec vs n store := by
  induction vs with
  | nil => intro n store i h; simp at h
  | cons v rest ih =>
    intro n store i h e hsnd
    match i with
    | 0 =>
      simp only [List.getElem_cons_zero, Nat.add_zero] at hsnd
      simp only [elemErrs, hsnd, Nat.add_zero]
      exact List.mem_cons_self _ _
    | Nat.succ j =>
      simp only [List.getElem_cons_succ] at hsnd
      simp only [elemErrs]
      have h2 := ih (n + 1) (store.set n (dec v (store.getD n (.iface .null))).fst) j
        (by simp at h; omega) e ?_
      · cases (dec v (store.getD n (.iface .null))).snd with
        | none =>
          simpa [show n + 1 + j = n + (j + 1) by omega] using h2
        | some e2 =>
          refine List.mem_cons_of_mem _ ?_
          simpa [show n + 1 + j = n + (j + 1) by omega] using h2
      · rw [List.getD_eq_getElem?_getD, List.getElem?_set_ne (by omega),
          ← List.getD_eq_getElem?_getD, show n + 1 + j = n + (j + 1) by omega]
        exact hsnd

theorem sliceGrown_length_ge (elemT : RType) (L : Nat) (store : List RVal) (n : Nat)
    (hL : L ≤ store.length) :
    n + L ≤ (sliceGrown elemT L store n).length := by
  simp only [sliceGrown]
  split
  case isTrue h =>
    have h2 := growCapLoop_ge store.length (n + L)
    simp only [List.length_append, List.length_take, List.length_replicate]
    omega
  case isFalse h => omega

theorem sliceGrown_getElem?_lt (elemT : RType) (L : Nat) (store : List RVal) (n i : Nat)
    (hi : i < L) (hL : L ≤ store.length) :
    (sliceGrown elemT L store n)[i]? = store[i]? := by
  simp only [sliceGrown]
  split
  case isTrue h =>
    rw [List.getElem?_append, List.length_take]
    simp only [show i < L ⊓ store.length by omega, if_pos]
    rw [List.getElem?_take]
    simp [hi]
  case isFalse h => rfl

/-- C2: decoding an Array node of N elements into a growable slice of
initial logical length L extends the length to exactly L+N, leaves the
first L cells unchanged, and stores into cell L+i the decode of source
element i (in source order, each into its own post-growth backing
cell); the backing capacity grows by the `growSliceCap` policy —
doubling below the fixed 1024 threshold, 25% growth above it. -/
theorem slice_decode_growth (p : Decoder) (vs : List CfValue) (elemT : RType) (L : Nat)
    (store : List RVal) (hL : L ≤ store.length) :
    (∀ c, 0 < c → c < 1024 → growSliceCap c = 2 * c) ∧
    (∀ c, 1024 ≤ c → growSliceCap c = c + c / 4) ∧
    ∃ store',
      (unmarshal p (some (.array vs)) (.slice elemT L store)).fst
        = .slice elemT (vs.length + L) store' ∧
      store'.length = (sliceGrown elemT L store vs.length).length ∧
      (∀ i, i < L → store'[i]? = store[i]?) ∧
      ∀ i, (h : i < vs.length) →
        store'[L + i]? = some (unmarshal p (some vs[i])
          ((sliceGrown elemT L store vs.length).getD (L + i) (.iface .null))).fst := by
  refine ⟨?_, ?_, ?_⟩
  · intro c h1 h2
    unfold growSliceCap
    rw [if_neg (by omega), if_pos h2]
    omega
  · intro c h1
    unfold growSliceCap
    rw [if_neg (by omega), if_neg (by omega)]
  · rw [unmarshal_array_into_slice]
    simp only [unmarshalArrayWith]
    refine ⟨_, rfl, ?_, ?_, ?_⟩
    · rw [arrLoop_length]
    · intro i hi
      rw [arrLoop_getElem?_lt _ _ _ _ _ i (by omega),
        sliceGrown_getElem?_lt _ _ _ _ _ hi hL]
    · intro i hi
      rw [arrLoop_getElem?_elem _ _ _ _ _ i hi
        (by have := sliceGrown_length_ge elemT L store vs.length hL; omega)]

/-- Closed witness for C2: one Boolean element into an empty bool
slice. -/
theorem slice_decode_growth_witness :
    (0 ≤ ([] : List RVal).length) ∧
    ((∀ c, 0 < c → c < 1024 → growSliceCap c = 2 * c) ∧
     (∀ c, 1024 ≤ c → growSliceCap c = c + c / 4) ∧
     ∃ store',
       (unmarshal ⟨false⟩ (some (.array [.boolean true])) (.slice .bool 0 [])).fst
         = .slice .bool ([CfValue.boolean true].length + 0) store' ∧
       store'.length = (sliceGrown .bool 0 [] [CfValue.boolean true].length).length ∧
       (∀ i, i < 0 → store'[i]? = ([] : List RVal)[i]?) ∧
       ∀ i, (h : i < [CfValue.boolean true].length) →
         store'[0 + i]? = some (unmarshal ⟨false⟩ (some [CfValue.boolean true][i])
           ((sliceGrown .bool 0 [] [CfValue.boolean true].length).getD (0 + i)
             (.iface .null))).fst) :=
  ⟨by decide, slice_decode_growth ⟨false⟩ [.boolean true] .bool 0 [] (by decide)⟩

/-- C3 (amended): a failing sequence element is recorded in the
aggregated collection tagged with its destination index — the
destination slice's initial length plus the element's 0-based source
position (the two coincide exactly when the initial length is 0, and
for fixed-size arrays, whose running index starts at 0) — and decoding
continues with the remaining elements: the collection receives exactly
the causes of the failing elements, in order, and every failing element
contributes its tagged cause. -/
theorem element_failures_indexed (p : Decoder) (vs : List CfValue) (elemT : RType)
    (L : Nat) (store : List RVal) (elems : List RVal) (hfit : vs.length ≤ elems.length) :
    ((unmarshal p (some (.array vs)) (.slice elemT L store)).snd
      = multiOf (elemErrs (fun v slot => unmarshal p (some v) slot) vs L
          (sliceGrown elemT L store vs.length))) ∧
    ((unmarshal p (some (.array vs)) (.array elemT elems)).snd
      = multiOf (elemErrs (fun v slot => unmarshal p (some v) slot) vs 0 elems)) ∧
    (∀ i, (h : i < vs.length) → ∀ e,
      (unmarshal p (some vs[i])
          ((sliceGrown elemT L store vs.length).getD (L + i) (.iface .null))).snd = some e →
      UErr.tagged (.element (L + i)) e
        ∈ elemErrs (fun v slot => unmarshal p (some v) slot) vs L
            (sliceGrown elemT L store vs.length)) := by
  refine ⟨?_, ?_, ?_⟩
  · rw [unmarshal_array_into_slice]
    simp only [unmarshalArrayWith]
    rw [arrLoop_snd_eq, foldl_appendErr_none]
  · rw [unmarshal_array_into_array]
    simp only [unmarshalArrayWith]
    rw [if_neg (by omega)]
    rw [arrLoop_snd_eq, foldl_appendErr_none]
  · intro i h e hsnd
    exact mem_elemErrs _ vs L _ i h e hsnd

/-- C3 counterexample: with a pre-populated slice destination of
initial length 1, the single failing source element (source position 0)
is recorded with tag index 1, its destination index, not its 0-based
position in the source array. -/
theorem element_tag_counterexample :
    ((unmarshal ⟨false⟩ (some (.array [.boolean true]))
        (.slice .string 1 [.str "keep"])).snd
      = some (.multi [.tagged (.element 1) (.incompatible .string "boolean")])) ∧
    ((unmarshal ⟨false⟩ (some (.array [.boolean true]))
        (.slice .string 1 [.str "keep"])).snd
      ≠ some (.multi [.tagged (.element 0) (.incompatible .string "boolean")])) := by
  have h : (unmarshal ⟨false⟩ (some (.array [.boolean true]))
      (.slice .string 1 [.str "keep"])).snd
      = some (.multi [.tagged (.element 1) (.incompatible .string "boolean")]) := by
    simp [unmarshal, unmarshalArrayWith, arrLoop, sliceGrown, growCapLoop, growSliceCap,
      zeroVal, appendErr, RVal.type, CfValue.typeName]
  refine ⟨h, ?_⟩
  rw [h]
  intro hc
  simp at hc

/-- Closed witness for C3 at a one-element array and a fitting
fixed-size destination. -/
theorem element_failures_indexed_witness :
    ([CfValue.boolean true].length ≤ [RVal.bool false].length) ∧
    (((unmarshal ⟨false⟩ (some (.array [.boolean true]))
        (.slice .bool 0 [])).snd
      = multiOf (elemErrs (fun v slot => unmarshal ⟨false⟩ (some v) slot)
          [.boolean true] 0 (sliceGrown .bool 0 [] [CfValue.boolean true].length))) ∧
    (((unmarshal ⟨false⟩ (some (.array [.boolean true]))
        (.array .bool [.bool false])).snd
      = multiOf (elemErrs (fun v slot => unmarshal ⟨false⟩ (some v) slot)
          [.boolean true] 0 [.bool false]))) ∧
    (∀ i, (h : i < [CfValue.boolean true].length) → ∀ e,
      (unmarshal ⟨false⟩ (some [CfValue.boolean true][i])
          ((sliceGrown .bool 0 [] [CfValue.boolean true].length).getD (0 + i)
            (.iface .null))).snd = some e →
      UErr.tagged (.element (0 + i)) e
        ∈ elemErrs (fun v slot => unmarshal ⟨false⟩ (some v) slot)
            [.boolean true] 0 (sliceGrown .bool 0 [] [CfValue.boolean true].length))) :=
  ⟨by decide, element_failures_indexed ⟨false⟩ [.boolean true] .bool 0 [] [.bool false]
    (by decide)⟩

/-! ### Mapping decode lemmas -/

theorem zip_unzip_filter {α β : Type} (l : List (α × β)) :
    (l.map Prod.fst).zip (l.map Prod.snd) = l := by
  induction l with
  | nil => rfl
  | cons kv rest ih => simp [ih]

theorem lookupLast_zip_none {α : Type} (k : String) (keys : List String) (values : List α)
    (hk : k ∉ keys) : lookupLast k (keys.zip values) = none := by
  induction keys generalizing values with
  | nil => rfl
  | cons a rest ih =>
    cases values with
    | nil => rfl
    | cons v vrest =>
      simp only [List.mem_cons, not_or] at hk
      have h2 : lookupLast k (rest.zip vrest) = none := ih _ hk.2
      simp only [List.zip] at h2
      simp only [List.zip_cons_cons, lookupLast, h2]
      rw [if_neg (fun he => hk.1 he.symm)]

theorem lookupLast_filter {α : Type} (pk : String → Bool) (k : String)
    (l : List (String × α)) (hp : pk k = true) :
    lookupLast k (l.filter fun kv => pk kv.1) = lookupLast k l := by
  induction l with
  | nil => rfl
  | cons kv rest ih =>
    obtain ⟨a, v⟩ := kv
    by_cases hpa : pk a = true
    · simp only [List.filter_cons, hpa, if_true, lookupLast, ih]
    · have hak : ¬(a = k) := fun he => hpa (he ▸ hp)
      simp only [List.filter_cons, hpa]
      simp only [Bool.false_eq_true, if_false, ih, lookupLast]
      cases lookupLast k rest with
      | some r => simp
      | none => simp [hak]

theorem structLoop_entries_congr {α : Type} (dec : α → RVal → RVal × Option UErr)
    (entries1 entries2 : List (String × α)) (fields : List (String × Bool × RVal)) :
    ∀ err, (∀ f ∈ fields, lookupLast f.1 entries1 = lookupLast f.1 entries2) →
      structLoop dec entries1 fields err = structLoop dec entries2 fields err := by
  induction fields with
  | nil => intro err h; rfl
  | cons f rest ih =>
    intro err h
    obtain ⟨nm, canSet, fv⟩ := f
    have hf := h _ (List.mem_cons_self _ _)
    simp only at hf
    have ih2 : ∀ err2, structLoop dec entries1 rest err2 = structLoop dec entries2 rest err2 :=
      fun err2 => ih err2 fun g hg => h g (List.mem_cons_of_mem _ hg)
    simp only [structLoop, hf, ih2]

theorem structLoop_length {α : Type} (dec : α → RVal → RVal × Option UErr)
    (entries : List (String × α)) (fields : List (String × Bool × RVal)) :
    ∀ err, (structLoop dec entries fields err).fst.length = fields.length := by
  induction fields with
  | nil => intro err; rfl
  | cons f rest ih =>
    intro err
    obtain ⟨nm, canSet, fv⟩ := f
    simp only [structLoop]
    cases lookupLast nm entries with
    | none => simp [ih]
    | some ent => cases canSet <;> simp [ih]

theorem structLoop_getElem?_untouched {α : Type} (dec : α → RVal → RVal × Option UErr)
    (entries : List (String × α)) (fields : List (String × Bool × RVal)) :
    ∀ err i, (h : i < fields.length) → lookupLast (fields[i].1) entries = none →
      (structLoop dec entries fields err).fst[i]? = some fields[i] := by
  induction fields with
  | nil => intro err i h; simp at h
  | cons f rest ih =>
    intro err i h hnone
    obtain ⟨nm, canSet, fv⟩ := f
    match i with
    | 0 =>
      simp only [List.getElem_cons_zero] at hnone ⊢
      simp only [structLoop, hnone]
      simp
    | Nat.succ j =>
      simp only [List.getElem_cons_succ] at hnone ⊢
      simp only [structLoop]
      cases lookupLast nm entries with
      | none =>
        simpa using ih _ j (by simp at h; omega) hnone
      | some ent =>
        cases canSet with
        | false => simpa using ih _ j (by simp at h; omega) hnone
        | true => simpa using ih _ j (by simp at h; omega) hnone

/-- C6: decoding a Dictionary into a record destination is governed
entirely by the field descriptor names — document keys whose names
match no descriptor are ignored (restricting the dictionary to the
descriptor names yields the identical decode, result and error alike),
and every field whose descriptor name has no matching document key is
left untouched. -/
theorem struct_decode_frame (p : Decoder) (keys : List String) (values : List CfValue)
    (name : String) (fields : List (String × Bool × RVal)) :
    (unmarshal p (some (.dict keys values)) (.strukt name fields)
      = unmarshal p (some (.dict
          (restrictKeys (fun k => (fields.map fun f => f.1).contains k) keys values).1
          (restrictKeys (fun k => (fields.map fun f => f.1).contains k) keys values).2))
          (.strukt name fields)) ∧
    ∃ fields',
      (unmarshal p (some (.dict keys values)) (.strukt name fields)).fst
        = .strukt name fields' ∧
      fields'.length = fields.length ∧
      ∀ i, (h : i < fields.length) → fields[i].1 ∉ keys → fields'[i]? = some fields[i] := by
  constructor
  · rw [unmarshal_dict_into_strukt, unmarshal_dict_into_strukt]
    simp only [unmarshalDictionaryWith, restrictKeys]
    rw [zip_unzip_filter]
    refine congrArg
      (fun (r : List (String × Bool × RVal) × Option UErr) =>
        (RVal.strukt name r.fst, r.snd)) ?_
    refine structLoop_entries_congr _ _ _ _ _ fun f hf => ?_
    rw [lookupLast_filter _ _ _ (List.elem_eq_true_of_mem (List.mem_map_of_mem _ hf))]
  · rw [unmarshal_dict_into_strukt]
    simp only [unmarshalDictionaryWith]
    refine ⟨_, rfl, structLoop_length _ _ _ _, fun i h hki => ?_⟩
    exact structLoop_getElem?_untouched _ _ _ _ i h (lookupLast_zip_none _ _ _ hki)

/-- Closed witness for C6: a document key `x` unknown to the single
descriptor `a`, whose field stays untouched. -/
theorem struct_decode_frame_witness :
    (unmarshal ⟨false⟩ (some (.dict ["x"] [.boolean true]))
        (.strukt "S" [("a", true, .str "old")])
      = unmarshal ⟨false⟩ (some (.dict
          (restrictKeys (fun k =>
            ([("a", true, RVal.str "old")].map fun f => f.1).contains k)
            ["x"] [.boolean true]).1
          (restrictKeys (fun k =>
            ([("a", true, RVal.str "old")].map fun f => f.1).contains k)
            ["x"] [.boolean true]).2))
          (.strukt "S" [("a", true, .str "old")])) ∧
    ∃ fields',
      (unmarshal ⟨false⟩ (some (.dict ["x"] [.boolean true]))
          (.strukt "S" [("a", true, .str "old")])).fst
        = .strukt "S" fields' ∧
      fields'.length = [("a", true, RVal.str "old")].length ∧
      ∀ i, (h : i < [("a", true, RVal.str "old")].length) →
        [("a", true, RVal.str "old")][i].1 ∉ ["x"] →
        fields'[i]? = some [("a", true, RVal.str "old")][i] :=
  struct_decode_frame ⟨false⟩ ["x"] [.boolean true] "S" [("a", true, .str "old")]

theorem eq_of_keyBeq {a b : RVal} (h : keyBeq a b = true) : a = b := by
  cases a <;> cases b <;> try simp_all [keyBeq]
  case iface.iface d1 d2 => cases d1 <;> cases d2 <;> simp_all [keyBeq]

theorem mapLookup_mapSet_str (m : List (RVal × RVal)) (s : String) (v : RVal) (k' : RVal) :
    mapLookup (mapSet m (.str s) v) k'
      = if keyBeq (.str s) k' then some v else mapLookup m k' := by
  induction m with
  | nil => simp [mapSet, mapLookup]
  | cons kv rest ih =>
    obtain ⟨a, b⟩ := kv
    by_cases hak : keyBeq a (.str s) = true
    · have ha : a = .str s := eq_of_keyBeq hak
      subst ha
      simp only [mapSet, hak, if_true]
      simp only [mapLookup]
      split <;> simp_all
    · simp only [mapSet, hak]
      simp only [Bool.false_eq_true, if_false, mapLookup, ih]
      by_cases hs : keyBeq (.str s) k' = true
      · have hk : (.str s : RVal) = k' := eq_of_keyBeq hs
        subst hk
        simp_all
      · simp_all

theorem mapLoop_lookup {α : Type} (dec : α → RVal → RVal × Option UErr) (valT : RType)
    (pairs : List (String × α)) :
    ∀ (m : List (RVal × RVal)) (err : Option UErr) (k : String),
      mapLookup (mapLoop dec .string valT pairs m err).fst (.str k)
        = match lookupLast k (pairs.filter fun kv =>
              ((dec kv.2 (zeroVal valT)).snd).isNone) with
          | some v => some (dec v (zeroVal valT)).fst
          | none => mapLookup m (.str k) := by
  induction pairs with
  | nil => intro m err k; rfl
  | cons kv rest ih =>
    intro m err k
    obtain ⟨k0, sv⟩ := kv
    cases hsnd : (dec sv (zeroVal valT)).snd with
    | some e =>
      simp only [mapLoop, hsnd, List.filter_cons, Option.isNone_some]
      simp only [Bool.false_eq_true, if_false]
      rw [ih]
    | none =>
      simp only [mapLoop, hsnd, List.filter_cons, Option.isNone_none, if_true]
      rw [ih]
      cases hl : lookupLast k (rest.filter fun kv =>
          ((dec kv.2 (zeroVal valT)).snd).isNone) with
      | some r => simp [lookupLast, hl]
      | none =>
        simp only [lookupLast, hl, convertStringTo]
        by_cases hk : k0 = k
        · subst hk
          simp [mapLookup_mapSet_str, keyBeq]
        · simp [hk, mapLookup_mapSet_str, keyBeq]

theorem mapLoop_snd_none {α : Type} (dec : α → RVal → RVal × Option UErr) (keyT valT : RType)
    (pairs : List (String × α)) :
    ∀ (m : List (RVal × RVal)) (err : Option UErr),
      (∀ kv ∈ pairs, (dec kv.2 (zeroVal valT)).snd = none) →
      (mapLoop dec keyT valT pairs m err).snd = err := by
  induction pairs with
  | nil => intro m err h; rfl
  | cons kv rest ih =>
    intro m err h
    obtain ⟨k0, sv⟩ := kv
    have h0 := h _ (List.mem_cons_self _ _)
    simp only at h0
    simp only [mapLoop, h0]
    exact ih _ _ fun g hg => h g (List.mem_cons_of_mem _ hg)

/-- C7: decoding a Dictionary with duplicate keys into a string-keyed
map decodes every pair independently and lets the later occurrence win:
when all value decodes succeed, the call succeeds and the final map
binds each key to the decoded value of its last occurrence in document
order, leaving keys absent from the dictionary at their prior
bindings.  Instantiated at `Dictionary([(a,1),(a,2)])` this yields
`{a: 2}` (see the witness). -/
theorem map_duplicate_last_wins (p : Decoder) (keys : List String) (values : List CfValue)
    (valT : RType) (m0 : List (RVal × RVal))
    (hok : ∀ v ∈ values, (unmarshal p (some v) (zeroVal valT)).snd = none) :
    ((unmarshal p (some (.dict keys values)) (.map .string valT (some m0))).snd = none) ∧
    ∃ m', (unmarshal p (some (.dict keys values)) (.map .string valT (some m0))).fst
        = .map .string valT (some m') ∧
      ∀ k, mapLookup m' (.str k)
        = match lookupLast k (keys.zip values) with
          | some v => some (unmarshal p (some v) (zeroVal valT)).fst
          | none => mapLookup m0 (.str k) := by
  have hzip : ∀ kv ∈ keys.zip values,
      (unmarshal p (some kv.2) (zeroVal valT)).snd = none :=
    fun kv hkv => hok _ (List.of_mem_zip hkv).2
  have hfilter : ((keys.zip values).filter fun kv =>
      ((unmarshal p (some kv.2) (zeroVal valT)).snd).isNone) = keys.zip values :=
    List.filter_eq_self.mpr fun kv hkv => by rw [hzip kv hkv]; rfl
  rw [unmarshal_dict_into_map]
  simp only [unmarshalDictionaryWith, stringConvertibleTo, Option.getD_some, if_true]
  refine ⟨mapLoop_snd_none _ _ _ _ _ _ hzip, _, rfl, fun k => ?_⟩
  rw [mapLoop_lookup, hfilter]
  cases lookupLast k (keys.zip values) <;> rfl

/-- Closed witness for C7: the duplicate-key dictionary
`[(a,1),(a,2)]` decoded into a string-keyed map of unsigned integers
yields the single binding of `a` to 2. -/
theorem map_duplicate_last_wins_witness :
    (∀ v ∈ [CfValue.number 1 false, CfValue.number 2 false],
      (unmarshal ⟨false⟩ (some v) (zeroVal (.uint 64))).snd = none) ∧
    (((unmarshal ⟨false⟩ (some (.dict ["a", "a"] [.number 1 false, .number 2 false]))
        (.map .string (.uint 64) (some []))).snd = none) ∧
    ∃ m', (unmarshal ⟨false⟩ (some (.dict ["a", "a"] [.number 1 false, .number 2 false]))
        (.map .string (.uint 64) (some []))).fst
        = .map .string (.uint 64) (some m') ∧
      ∀ k, mapLookup m' (.str k)
        = match lookupLast k
            (["a", "a"].zip [CfValue.number 1 false, CfValue.number 2 false]) with
          | some v => some (unmarshal ⟨false⟩ (some v) (zeroVal (.uint 64))).fst
          | none => mapLookup [] (.str k)) := by
  have hok : ∀ v ∈ [CfValue.number 1 false, CfValue.number 2 false],
      (unmarshal ⟨false⟩ (some v) (zeroVal (.uint 64))).snd = none := by
    intro v hv
    simp only [List.mem_cons, List.not_mem_nil, or_false] at hv
    rcases hv with rfl | rfl <;> simp [unmarshal, zeroVal, wrapUnsigned]
  exact ⟨hok, map_duplicate_last_wins ⟨false⟩ ["a", "a"]
    [.number 1 false, .number 2 false] (.uint 64) [] hok⟩

/-- C10: in mapping decode into a string-keyed map, a pair whose value
fails to decode sets no entry for its key: each key ends bound to the
decoded value of its last successfully-decoding occurrence, so in
particular when a duplicate key's later occurrence fails, the earlier
occurrence's decoded value remains, and a key none of whose occurrences
succeed keeps its prior binding. -/
theorem map_failed_pair_no_entry (p : Decoder) (keys : List String) (values : List CfValue)
    (valT : RType) (m0 : List (RVal × RVal)) :
    ∃ m', (unmarshal p (some (.dict keys values)) (.map .string valT (some m0))).fst
        = .map .string valT (some m') ∧
      ∀ k, mapLookup m' (.str k)
        = match lookupLast k ((keys.zip values).filter fun kv =>
              ((unmarshal p (some kv.2) (zeroVal valT)).snd).isNone) with
          | some v => some (unmarshal p (some v) (zeroVal valT)).fst
          | none => mapLookup m0 (.str k) := by
  rw [unmarshal_dict_into_map]
  simp only [unmarshalDictionaryWith, stringConvertibleTo, Option.getD_some, if_true]
  refine ⟨_, rfl, fun k => ?_⟩
  rw [mapLoop_lookup]
  cases lookupLast k ((keys.zip values).filter fun kv =>
    ((unmarshal p (some kv.2) (zeroVal valT)).snd).isNone) <;> rfl

/-- C1 (amended): for every scalar node (String, Number, Real, Boolean,
Data, UID) and every non-pointer, non-hook destination that is also not
the unconstrained any-slot, strict-mode decode succeeds exactly when
the (node kind, destination kind) pair is in the §4.1 step 7 table and,
for Data into a fixed-size byte array, the array is at least as long as
the payload; an in-table Data pairing with an undersized array fails
with a sizing (not type-mismatch) error, and every out-of-table pairing
fails with the type-mismatch error carrying the destination type and
the node kind name. -/
theorem scalar_dispatch_table (pv : CfValue) (val : RVal)
    (hs : pv.isScalar = true)
    (hptr : val.type.kind ≠ RKind.ptr) (hiface : val.type.kind ≠ RKind.iface) :
    ((unmarshal ⟨false⟩ (some pv) val).snd = none ↔
      (specScalarTable pv val.type = true ∧ dataFits pv val = true)) ∧
    (specScalarTable pv val.type = true → dataFits pv val = false →
      ∃ n c, (unmarshal ⟨false⟩ (some pv) val).snd = some (.sizingBytes n c)) ∧
    (specScalarTable pv val.type = false →
      (unmarshal ⟨false⟩ (some pv) val).snd = some (.incompatible val.type pv.typeName)) := by
  cases pv <;> cases val <;>
    try (simp_all [unmarshal, specScalarTable, dataFits, RVal.type, RType.kind,
      CfValue.typeName, CfValue.isScalar])
  case data.slice bs elemT len store =>
    split_ifs with h1 <;> simp_all
  case data.array bs elemT elems =>
    split_ifs with h1 h2 <;> simp_all

/-- C1 counterexample: an empty-interface destination is neither a
pointer nor a hook implementor, yet a String node decodes into it
successfully although the pairing is not in the step 7 table — the
claim's success-iff-table equivalence fails there. -/
theorem scalar_table_counterexample :
    ¬ (((unmarshal ⟨false⟩ (some (.string "x")) (.iface .null)).snd = none) ↔
        specScalarTable (.string "x") (RVal.iface .null).type = true) := by
  simp [unmarshal, valueInterface, specScalarTable, RVal.type, RType.kind]

/-- Closed witness for C1 at a Number node and a signed 64-bit
destination slot. -/
theorem scalar_dispatch_table_witness :
    (CfValue.number 5 true).isScalar = true ∧
    (RVal.int 64 0).type.kind ≠ RKind.ptr ∧
    (RVal.int 64 0).type.kind ≠ RKind.iface ∧
    (((unmarshal ⟨false⟩ (some (.number 5 true)) (.int 64 0)).snd = none ↔
      (specScalarTable (.number 5 true) (RVal.int 64 0).type = true ∧
        dataFits (.number 5 true) (.int 64 0) = true)) ∧
    (specScalarTable (.number 5 true) (RVal.int 64 0).type = true →
      dataFits (.number 5 true) (.int 64 0) = false →
      ∃ n c, (unmarshal ⟨false⟩ (some (.number 5 true)) (.int 64 0)).snd
        = some (.sizingBytes n c)) ∧
    (specScalarTable (.number 5 true) (RVal.int 64 0).type = false →
      (unmarshal ⟨false⟩ (some (.number 5 true)) (.int 64 0)).snd
        = some (.incompatible (RVal.int 64 0).type (CfValue.number 5 true).typeName))) :=
  ⟨rfl, by simp [RVal.type, RType.kind], by simp [RVal.type, RType.kind],
    scalar_dispatch_table _ _ rfl (by simp [RVal.type, RType.kind])
      (by simp [RVal.type, RType.kind])⟩

/-- Faithfulness check for the convertibility guard: a nil map keyed by
the empty interface is a convertible destination (Go converts a string
to an interface type it implements), so decoding into it installs the
decoded entries — with keys wrapped as interface values — and produces
no key-type error. -/
theorem nil_iface_map_decodes :
    unmarshal ⟨false⟩ (some (.dict ["a"] [.boolean true])) (.map .iface .bool none)
      = (.map .iface .bool (some [(.iface (.str "a"), .bool true)]), none) := by
  rw [unmarshal_dict_into_map]
  simp [unmarshalDictionaryWith, mapLoop, mapSet, stringConvertibleTo, convertStringTo,
    zeroVal, unmarshal]

end Plist
